import Mathlib

/-
Verification of the catalog data core (path resolver, parquet data service,
DuckDB view attachment) of py-api-catalog.

Shallow embedding:
 * `get_parquet_path`, `put_parquet_data`, `get_parquet_data`,
   `list_partition_paths` are translated from
   src/catalog_api/services/CatalogDataService.py.
 * `attachParquetFiles` and its helpers are translated from
   src/catalog_api/infrastructure/DuckDbParquet.py.  The DuckDB connection
   is abstracted as an oracle deciding whether a given SQL statement
   executes successfully, together with a catalog of view names on which
   CREATE OR REPLACE VIEW acts.
 * The S3 bucket is modelled as an association list from keys to stored
   DataFrames (parquet serialization with `to_parquet`/`read_parquet` is
   modelled as the identity at the DataFrame level), and for the
   attachment engine as a list of keys plus a presign oracle
   (`generate_presigned_url` either returns a URL or raises).
 * pandas DataFrames are modelled as ordered lists of named columns of
   values; `df[k] = scalar` broadcasts the scalar over the current row
   count, replacing the column in place when the name exists and
   appending it otherwise, exactly as pandas does.
-/

/-- A cell value in a DataFrame: partition values are strings, data cells
may also be integers, and `null` models NaN cells introduced by
union-by-name concatenation. -/
inductive Val where
  | str (s : String)
  | int (n : Int)
  | null
deriving DecidableEq, Repr

/-- A pandas DataFrame, modelled as an ordered list of named columns. -/
structure DataFrame where
  cols : List (String × List Val)
deriving DecidableEq, Repr

/-- Number of rows: the length of the first column (0 for a column-less
frame), matching a rectangular pandas DataFrame. -/
def DataFrame.nRows (df : DataFrame) : Nat :=
  match df.cols with
  | [] => 0
  | c :: _ => c.2.length

/-- The column names, in order. -/
def DataFrame.colNames (df : DataFrame) : List String :=
  df.cols.map (fun c => c.1)

/-- Look a column up by name. -/
def DataFrame.getCol (df : DataFrame) (k : String) : Option (List Val) :=
  (df.cols.find? (fun c => c.1 = k)).map (fun c => c.2)

/-- `df[k] = v` for a scalar `v` in pandas: broadcast over the row count,
replacing the column in place when present, appending it otherwise. -/
def DataFrame.setColumn (df : DataFrame) (k : String) (v : Val) : DataFrame :=
  if df.cols.any (fun c => c.1 = k) then
    ⟨df.cols.map (fun c => if c.1 = k then (k, List.replicate df.nRows v) else c)⟩
  else
    ⟨df.cols ++ [(k, List.replicate df.nRows v)]⟩

/-- Rectangularity: every column has exactly `nRows` entries. -/
def DataFrame.Rect (df : DataFrame) : Prop :=
  ∀ c ∈ df.cols, c.2.length = df.nRows

instance (df : DataFrame) : Decidable df.Rect := by
  unfold DataFrame.Rect; infer_instance

/-- `pd.concat(dfs, ignore_index=True)`: column names united in order of
first appearance; each frame contributes its rows, with `null` filling the
columns it lacks. -/
def concatDfs (dfs : List DataFrame) : DataFrame :=
  let names := dfs.foldl (fun acc df => acc ++ df.colNames.filter (fun n => n ∉ acc)) []
  ⟨names.map (fun n =>
    (n, dfs.foldr (fun df acc =>
      ((df.getCol n).getD (List.replicate df.nRows Val.null)) ++ acc) []))⟩

/-- The S3 bucket contents as seen by the data service: an association
list from object key to the DataFrame stored (as parquet bytes) there,
in enumeration order. -/
abbrev Store : Type := List (String × DataFrame)

/-- `S3Bucket.put_bytes` via `put_object`: overwrite the object at `key`
if present, create it otherwise. -/
def putBytes (store : Store) (key : String) (df : DataFrame) : Store :=
  if (List.any store (fun e => e.1 = key)) then
    List.map (fun e => if e.1 = key then (key, df) else e) store
  else
    store ++ [(key, df)]

/-- `S3Bucket.get_bytes` via `get_object`: `none` models the
`ClientError` raised for a missing key. -/
def getBytes (store : Store) (key : String) : Option DataFrame :=
  (List.find? (fun e => e.1 = key) store).map (fun e => e.2)

/-- Python `str.startswith`, at the character-list level (the byte-level
`String.startsWith` is extensionally the same on our data). -/
def strStarts (s pre : String) : Bool :=
  List.isPrefixOf pre.data s.data

/-- Python `str.endswith`, at the character-list level. -/
def strEnds (s suf : String) : Bool :=
  List.isSuffixOf suf.data s.data

/-- Truthiness of the Python `Optional[dict]` partitions argument:
`if partitions:` is false exactly for `None` and for the empty dict.
A dict is modelled as its ordered item list. -/
def dictTruthy (partitions : Option (List (String × String))) : Bool :=
  match partitions with
  | none => false
  | some ps => !ps.isEmpty

/-- `CatalogDataService.get_parquet_path`: joins organization, dataset
and table with "/", appends one `key=value` segment per partition item in
dict order when `partitions` is truthy, and wraps the result as
`catalog-data/.../data.parquet`. -/
def get_parquet_path (organization dataset table : String)
    (partitions : Option (List (String × String))) : String :=
  let parts := String.intercalate "/" [organization, dataset, table]
  let parts :=
    if dictTruthy partitions then
      parts ++ "/" ++ String.intercalate "/"
        ((partitions.getD []).map (fun kv => kv.1 ++ "=" ++ kv.2))
    else parts
  "catalog-data/" ++ parts ++ "/data.parquet"

/-- `CatalogDataService.put_parquet_data` (value-level rendering):
copies the caller frame, materializes each partition value as a column on
the copy when partitions are truthy, serializes to parquet and writes it
at the resolved path.  Returns the new store and the path written. -/
def putParquetData (store : Store) (df : DataFrame)
    (organization dataset table : String)
    (partitions : Option (List (String × String))) : Store × String :=
  let dfToSave := df
  if dictTruthy partitions then
    let dfToSave := (partitions.getD []).foldl
      (fun acc kv => acc.setColumn kv.1 (Val.str kv.2)) dfToSave
    let filePath := get_parquet_path organization dataset table partitions
    (putBytes store filePath dfToSave, filePath)
  else
    let filePath := get_parquet_path organization dataset table none
    (putBytes store filePath dfToSave, filePath)

/-- `S3Bucket.list_objects(prefix, delimiter="")`: every object whose key
begins with the prefix, in enumeration order; with an empty delimiter
each entry is a file. -/
def listObjectsStore (store : Store) (pfx : String) : List (String × DataFrame) :=
  store.filter (fun e => strStarts e.1 pfx)

/-- `CatalogDataService.list_partition_paths`: keys under
`catalog-data/{organization}/{dataset}/{table}/` ending in
`data.parquet`. -/
def listPartitionPaths (store : Store)
    (organization dataset table : String) : List String :=
  let pfx := "catalog-data/" ++ organization ++ "/" ++ dataset ++ "/" ++ table ++ "/"
  ((listObjectsStore store pfx).map (fun e => e.1)).filter
    (fun f => strEnds f "data.parquet")

/-- `CatalogDataService.get_parquet_data`: with truthy partitions, read
the one exact path (a missing object raises, modelled as `none`);
otherwise read every listed partition path and concatenate, or return an
empty frame when nothing was listed.  Keys produced by the listing are
keys of the same store, so each per-path read succeeds; `filterMap`
renders the read loop. -/
def getParquetData (store : Store) (organization dataset table : String)
    (partitions : Option (List (String × String))) : Option DataFrame :=
  if dictTruthy partitions then
    getBytes store (get_parquet_path organization dataset table partitions)
  else
    let paths := listPartitionPaths store organization dataset table
    let dfs := paths.filterMap (fun p => getBytes store p)
    if dfs.isEmpty then some ⟨[]⟩ else some (concatDfs dfs)

/-- `CatalogDataService.put_parquet_data` (aliasing-level rendering used
for the frame property): DataFrame objects live on a heap of cells
addressed by index; `df.copy()` allocates a fresh cell holding the same
value and all partition-column assignments mutate that fresh cell. -/
def heapGet (h : List DataFrame) (r : Nat) : DataFrame :=
  h.getD r ⟨[]⟩

/-- Heap update at a reference. -/
def heapSet (h : List DataFrame) (r : Nat) (df : DataFrame) : List DataFrame :=
  h.set r df

/-- `df.copy()`: allocate a fresh cell with the same value; returns the
grown heap and the fresh reference. -/
def copyAlloc (h : List DataFrame) (r : Nat) : List DataFrame × Nat :=
  (h ++ [heapGet h r], h.length)

/-- The body of `put_parquet_data` with the caller frame passed by
reference: `df_to_save = df.copy()`, then `df_to_save[k] = v` per
partition item, then serialize and upload the copy. -/
def putParquetDataRef (h : List DataFrame) (store : Store) (dfRef : Nat)
    (organization dataset table : String)
    (partitions : Option (List (String × String))) : List DataFrame × Store :=
  let alloc := copyAlloc h dfRef
  let h1 := alloc.1
  let r := alloc.2
  if dictTruthy partitions then
    let h2 := (partitions.getD []).foldl
      (fun hh kv => heapSet hh r ((heapGet hh r).setColumn kv.1 (Val.str kv.2))) h1
    let filePath := get_parquet_path organization dataset table partitions
    (h2, putBytes store filePath (heapGet h2 r))
  else
    let filePath := get_parquet_path organization dataset table none
    (h1, putBytes store filePath (heapGet h1 r))

/-
View attachment engine (src/catalog_api/infrastructure/DuckDbParquet.py).
-/

/-- Python `str.split(sep)` for a one-character separator, at the
character-list level ("" splits to [""]). -/
def splitOnChar (c : Char) : List Char → List (List Char)
  | [] => [[]]
  | x :: xs =>
    let r := splitOnChar c xs
    if x = c then [] :: r
    else
      match r with
      | s :: rest => (x :: s) :: rest
      | [] => [[x]]

/-- Python `str.rstrip("/")`: drop every trailing slash. -/
def rstripSlash (l : List Char) : List Char :=
  (l.reverse.dropWhile (fun x => x = '/')).reverse

/-- `self.parquet_prefix.rstrip('/').split('/')[-1]` in
`DuckDbParquet._attach_parquet_files`: the view name derived from the
prefix. -/
def tableNameOfPfx (p : String) : String :=
  ((splitOnChar '/' (rstripSlash p.toList)).getLastD []).asString

/-- Python `f"{i:04d}"`: decimal, zero-padded to width 4. -/
def pad4 (i : Nat) : String :=
  let s := toString i
  if s.length < 4 then String.mk (List.replicate (4 - s.length) '0') ++ s else s

/-- `CREATE OR REPLACE VIEW name AS SELECT * FROM
read_parquet('src', hive_partitioning=true, union_by_name=true)` —
the statement issued for the glob pattern, for a single presigned URL and
for each per-partition view (whitespace normalized). -/
def viewFromSingleSource (name src : String) : String :=
  "CREATE OR REPLACE VIEW " ++ name ++ " AS SELECT * FROM read_parquet(\x27"
    ++ src ++ "\x27, hive_partitioning=true, union_by_name=true)"

/-- The array literal `['url1', 'url2', ...]` passed to `read_parquet`
in the multiple-URL case. -/
def urlsArrayLiteral (urls : List String) : String :=
  "[" ++ String.intercalate ", " (urls.map (fun u => "\x27" ++ u ++ "\x27")) ++ "]"

/-- The multiple-URL unified view statement. -/
def viewFromUrlArray (name arr : String) : String :=
  "CREATE OR REPLACE VIEW " ++ name ++ " AS SELECT * FROM read_parquet("
    ++ arr ++ ", hive_partitioning=true, union_by_name=true)"

/-- The last-resort `UNION ALL` view over the per-partition views. -/
def unionAllQuery (name : String) (views : List String) : String :=
  "CREATE OR REPLACE VIEW " ++ name ++ " AS "
    ++ String.intercalate " UNION ALL " (views.map (fun v => "SELECT * FROM " ++ v))

/-- The DuckDB connection, abstracted: an oracle deciding whether
executing a given SQL statement succeeds (`False` models a raised
exception). -/
structure Engine where
  execOk : String → Bool

/-- Effect of a successful `CREATE OR REPLACE VIEW` on the engine's view
catalog: replace when the name exists, add it otherwise — never a
"view already exists" error and never a duplicate. -/
def createOrReplaceView (views : List String) (name : String) : List String :=
  if name ∈ views then views else views ++ [name]

/-- The S3 bucket as seen by the attachment engine: its name, the object
keys in enumeration order, and the presign oracle
(`generate_presigned_url` returns a URL or raises, modelled by
`Option`). -/
structure S3Model where
  bucketName : String
  objects : List String
  presign : String → Option String

/-- `S3Bucket.list_objects(prefix, delimiter="")` key listing. -/
def listKeys (s3 : S3Model) (pfx : String) : List String :=
  s3.objects.filter (fun k => strStarts k pfx)

/-- `DuckDbParquet._find_all_parquet_files`: every listed key ending in
`.parquet`. -/
def findAllParquetFiles (s3 : S3Model) (pfx : String) : List String :=
  (listKeys s3 pfx).filter (fun k => strEnds k ".parquet")

/-- `DuckDbParquet._try_attach_with_glob_pattern`: build the S3 glob
pattern, issue the glob view statement, and catch any failure
(returning `false` instead of surfacing it).  `_configure_s3_access`
swallows its own exceptions, so the strategy fails exactly when the
view statement fails. -/
def tryAttachWithGlobPat (eng : Engine) (s3 : S3Model) (pfx : String)
    (views : List String) (tableName : String) : Bool × List String :=
  let s3GlobPat := "s3://" ++ s3.bucketName ++ "/" ++ pfx ++ "**/*.parquet"
  let query := viewFromSingleSource tableName s3GlobPat
  if eng.execOk query then (true, createOrReplaceView views tableName)
  else (false, views)

/-- The two `ValueError`s raised by
`DuckDbParquet._attach_with_presigned_urls`; the spec's taxonomy names
them `NoDataFound` and `AttachmentFailed` respectively. -/
inductive AttachErr where
  | noParquetFiles (pfx : String)
  | noPresignedUrls
deriving DecidableEq, Repr

/-- The per-partition view loop of the last-resort strategy: for each
URL indexed by `enumerate`, create `{table}_part_{i:04d}`; skip any URL
whose view creation fails.  Returns the succeeded view names and the
resulting view catalog. -/
def createPartViews (eng : Engine) (tableName : String) :
    List String → Nat → List String → List String × List String
  | [], _, views => ([], views)
  | url :: rest, i, views =>
    let safeViewName := tableName ++ "_part_" ++ pad4 i
    if eng.execOk (viewFromSingleSource safeViewName url) then
      let r := createPartViews eng tableName rest (i + 1)
        (createOrReplaceView views safeViewName)
      (safeViewName :: r.1, r.2)
    else
      createPartViews eng tableName rest (i + 1) views

/-- `DuckDbParquet._attach_with_presigned_urls`: enumerate `.parquet`
keys (raise if none), presign each key skipping failures (raise if none
succeeded), then create the unified view from the single URL or the URL
array; if that fails, fall to the per-partition loop and, when at least
one partition view exists, try the `UNION ALL` view — every failure in
that last stage is only logged. -/
def attachWithPresignedUrls (eng : Engine) (s3 : S3Model) (pfx : String)
    (tableName : String) (views : List String) : Except AttachErr (List String) :=
  let parquetFiles := findAllParquetFiles s3 pfx
  if parquetFiles.isEmpty then
    .error (.noParquetFiles pfx)
  else
    let presignedUrls := parquetFiles.filterMap s3.presign
    if presignedUrls.isEmpty then
      .error .noPresignedUrls
    else
      let query :=
        match presignedUrls with
        | [u] => viewFromSingleSource tableName u
        | _ => viewFromUrlArray tableName (urlsArrayLiteral presignedUrls)
      if eng.execOk query then
        .ok (createOrReplaceView views tableName)
      else
        let r := createPartViews eng tableName presignedUrls 0 views
        if r.1.isEmpty then
          .ok r.2
        else if eng.execOk (unionAllQuery tableName r.1) then
          .ok (createOrReplaceView r.2 tableName)
        else
          .ok r.2

/-- Which fallback strategies ran, in order. -/
inductive Strategy where
  | globPat
  | presignedUrls
deriving DecidableEq, Repr

/-- `DuckDbParquet._attach_parquet_files`: derive the view name from the
prefix, try the glob strategy, and fall back to the presigned-URL
strategy only when it failed.  Also returns the ordered list of
strategies attempted. -/
def attachParquetFiles (eng : Engine) (s3 : S3Model) (pfx : String)
    (views : List String) : Except AttachErr (List String) × List Strategy :=
  let tableName := tableNameOfPfx pfx
  let glob := tryAttachWithGlobPat eng s3 pfx views tableName
  if glob.1 then (.ok glob.2, [.globPat])
  else (attachWithPresignedUrls eng s3 pfx tableName views, [.globPat, .presignedUrls])

/-- Prefix used by `CatalogDataService.get_duckdb`. -/
def getDuckdbPfx (organization dataset table : String) : String :=
  "catalog-data/" ++ organization ++ "/" ++ dataset ++ "/" ++ table ++ "/"

/-- Prefix used by `CatalogDataService.get_duckdb_for_partitions`:
the table prefix extended with `key=value/` per partition item. -/
def getDuckdbForPartitionsPfx (organization dataset table : String)
    (partitions : List (String × String)) : String :=
  let partitionPath := partitions.foldl
    (fun acc kv => acc ++ kv.1 ++ "=" ++ kv.2 ++ "/") ""
  getDuckdbPfx organization dataset table ++ partitionPath

/-
Spec-side renderings (for comparison against the source definitions).
-/

/-- The storage path format of spec section 6, written independently:
`catalog-data/{organization}/{dataset}/{table}/[{partcol}={partval}/]*data.parquet`
with one segment per partition pair in caller order. -/
def specPathFormat (organization dataset table : String)
    (partitions : List (String × String)) : String :=
  "catalog-data/" ++ organization ++ "/" ++ dataset ++ "/" ++ table
    ++ String.join (partitions.map (fun kv => "/" ++ kv.1 ++ "=" ++ kv.2))
    ++ "/data.parquet"

/-- The path error the spec's taxonomy prescribes for malformed
identifiers. -/
inductive PathErr where
  | invalidIdentifier
deriving DecidableEq, Repr

/-- The path resolver contract of spec section 4.1, written from the
spec's words: empty organization/dataset/table is rejected with
`InvalidIdentifier`; otherwise the standard path is produced. -/
def specDataPath (organization dataset table : String)
    (partitions : List (String × String)) : Except PathErr String :=
  if organization = "" ∨ dataset = "" ∨ table = "" then
    .error .invalidIdentifier
  else
    .ok (specPathFormat organization dataset table partitions)

/-
Auxiliary forms used to state and prove the theorems, plus concrete
fixtures for witnesses.
-/

/-- Character-level normal form of the variable part of a storage path:
the `key=value` segments followed by the data-file name, separated by
slashes. -/
def tailChars : List (String × String) → List Char
  | [] => "data.parquet".data
  | kv :: rest => kv.1.data ++ '=' :: kv.2.data ++ '/' :: tailChars rest

/-- Concatenation of the character data of a list of strings. -/
def joinData : List String → List Char
  | [] => []
  | s :: rest => s.data ++ joinData rest

/-- `partition_path` accumulation of `get_duckdb_for_partitions`, as a
right fold. -/
def segsJoin : List (String × String) → String
  | [] => ""
  | kv :: rest => kv.1 ++ "=" ++ kv.2 ++ "/" ++ segsJoin rest

/-- A partition pair whose key and value are free of the two separator
characters of the path encoding. -/
def GoodPair (kv : String × String) : Prop :=
  '/' ∉ kv.1.data ∧ '=' ∉ kv.1.data ∧ '/' ∉ kv.2.data ∧ '=' ∉ kv.2.data

instance (kv : String × String) : Decidable (GoodPair kv) := by
  unfold GoodPair; infer_instance

/-- Engine in which every statement succeeds. -/
def engAllOk : Engine := ⟨fun _ => true⟩

/-- Engine in which every statement fails. -/
def engAllFail : Engine := ⟨fun _ => false⟩

/-- Engine in which only the per-partition view statements for table `t`
succeed (the glob, unified and union statements all fail). -/
def engPartOnly : Engine := ⟨fun q => strStarts q "CREATE OR REPLACE VIEW t_part_"⟩

/-- A bucket holding one parquet object under the usual table prefix,
with presigning always succeeding. -/
def s3One : S3Model :=
  ⟨"bkt", ["catalog-data/o/d/t/data.parquet"],
    fun k => some ("https://bkt.s3.amazonaws.com/" ++ k ++ "?sig")⟩

/-- An empty bucket. -/
def s3Empty : S3Model := ⟨"bkt", [], fun _ => none⟩

/-- A bucket holding one parquet object but whose presigning always
fails. -/
def s3NoPresign : S3Model :=
  ⟨"bkt", ["catalog-data/o/d/t/data.parquet"], fun _ => none⟩

/-- Character data of the `partition_path` accumulation of
`get_duckdb_for_partitions`. -/
def segsData : List (String × String) → List Char
  | [] => []
  | kv :: rest => kv.1.data ++ '=' :: kv.2.data ++ '/' :: segsData rest

/-- The character data contributed by the tail of a slash-separated
join: a leading slash before each element. -/
def joinTail : List String → List Char
  | [] => []
  | s :: rest => '/' :: s.data ++ joinTail rest

/-- A two-row single-column frame used in witnesses. -/
def dfA : DataFrame := ⟨[("x", [Val.int 1, Val.int 2])]⟩

/-- A one-row two-column frame used in witnesses. -/
def dfB : DataFrame := ⟨[("x", [Val.int 3]), ("y", [Val.str "a"])]⟩

/-- A store holding two partitions of table `t` used in witnesses. -/
def storeTwo : Store :=
  [("catalog-data/o/d/t/r=1/data.parquet", dfA),
    ("catalog-data/o/d/t/r=2/data.parquet", dfB)]

/-
Theorems.
-/

/-- Shared helper: the glob statement issued for a prefix. -/
theorem tryAttachWithGlobPat_eq (eng : Engine) (s3 : S3Model) (pfx : String)
    (views : List String) (tn : String) :
    tryAttachWithGlobPat eng s3 pfx views tn =
      if eng.execOk (viewFromSingleSource tn
          ("s3://" ++ s3.bucketName ++ "/" ++ pfx ++ "**/*.parquet")) then
        (true, createOrReplaceView views tn)
      else (false, views) := rfl

/-- C1.  View attachment attempts the glob strategy first; the
presigned-URL strategy runs exactly when the glob statement fails; a
glob failure is never surfaced (the outcome is then exactly the
presigned strategy's outcome); and on glob success no later strategy
runs. -/
theorem c1_fallback_chain (eng : Engine) (s3 : S3Model) (pfx : String)
    (views : List String) :
    (attachParquetFiles eng s3 pfx views).2.head? = some Strategy.globPat
    ∧ (Strategy.presignedUrls ∈ (attachParquetFiles eng s3 pfx views).2 ↔
        eng.execOk (viewFromSingleSource (tableNameOfPfx pfx)
          ("s3://" ++ s3.bucketName ++ "/" ++ pfx ++ "**/*.parquet")) = false)
    ∧ (eng.execOk (viewFromSingleSource (tableNameOfPfx pfx)
          ("s3://" ++ s3.bucketName ++ "/" ++ pfx ++ "**/*.parquet")) = true →
        attachParquetFiles eng s3 pfx views =
          (.ok (createOrReplaceView views (tableNameOfPfx pfx)), [Strategy.globPat]))
    ∧ (eng.execOk (viewFromSingleSource (tableNameOfPfx pfx)
          ("s3://" ++ s3.bucketName ++ "/" ++ pfx ++ "**/*.parquet")) = false →
        (attachParquetFiles eng s3 pfx views).1 =
          attachWithPresignedUrls eng s3 pfx (tableNameOfPfx pfx) views) := by
  unfold attachParquetFiles tryAttachWithGlobPat
  cases h : eng.execOk (viewFromSingleSource (tableNameOfPfx pfx)
      ("s3://" ++ s3.bucketName ++ "/" ++ pfx ++ "**/*.parquet")) <;>
    simp [h]

/-- Witness for C1 at a concrete engine and bucket: the glob statement
succeeds, so attachment succeeds via the glob strategy alone. -/
theorem c1_fallback_chain_witness :
    attachParquetFiles engAllOk s3One "catalog-data/o/d/t/" [] =
      (.ok (createOrReplaceView [] (tableNameOfPfx "catalog-data/o/d/t/")),
        [Strategy.globPat]) :=
  (c1_fallback_chain engAllOk s3One "catalog-data/o/d/t/" []).2.2.1 rfl

/-- Shared helper: `_attach_with_presigned_urls` with the normal result
hoisted out of the branch structure — every branch past the two guard
errors returns normally. -/
theorem attachWithPresignedUrls_cases (eng : Engine) (s3 : S3Model)
    (pfx tn : String) (views : List String) :
    attachWithPresignedUrls eng s3 pfx tn views =
      (if (findAllParquetFiles s3 pfx).isEmpty then
        .error (.noParquetFiles pfx)
      else if ((findAllParquetFiles s3 pfx).filterMap s3.presign).isEmpty then
        .error .noPresignedUrls
      else
        .ok (
          if eng.execOk (match (findAllParquetFiles s3 pfx).filterMap s3.presign with
              | [u] => viewFromSingleSource tn u
              | _ => viewFromUrlArray tn
                  (urlsArrayLiteral ((findAllParquetFiles s3 pfx).filterMap s3.presign))) then
            createOrReplaceView views tn
          else if (createPartViews eng tn
              ((findAllParquetFiles s3 pfx).filterMap s3.presign) 0 views).1.isEmpty then
            (createPartViews eng tn
              ((findAllParquetFiles s3 pfx).filterMap s3.presign) 0 views).2
          else if eng.execOk (unionAllQuery tn (createPartViews eng tn
              ((findAllParquetFiles s3 pfx).filterMap s3.presign) 0 views).1) then
            createOrReplaceView (createPartViews eng tn
              ((findAllParquetFiles s3 pfx).filterMap s3.presign) 0 views).2 tn
          else
            (createPartViews eng tn
              ((findAllParquetFiles s3 pfx).filterMap s3.presign) 0 views).2)) := by
  unfold attachWithPresignedUrls
  cases hf : (findAllParquetFiles s3 pfx).isEmpty
  · cases hu : ((findAllParquetFiles s3 pfx).filterMap s3.presign).isEmpty
    · simp only [hf, hu, Bool.false_eq_true, if_false]
      cases hq : eng.execOk (match (findAllParquetFiles s3 pfx).filterMap s3.presign with
          | [u] => viewFromSingleSource tn u
          | _ => viewFromUrlArray tn
              (urlsArrayLiteral ((findAllParquetFiles s3 pfx).filterMap s3.presign)))
      · simp only [hq, Bool.false_eq_true, if_false]
        cases hp : (createPartViews eng tn
            ((findAllParquetFiles s3 pfx).filterMap s3.presign) 0 views).1.isEmpty
        · simp only [hp, Bool.false_eq_true, if_false]
          cases hun : eng.execOk (unionAllQuery tn (createPartViews eng tn
              ((findAllParquetFiles s3 pfx).filterMap s3.presign) 0 views).1) <;>
            simp [hun]
        · simp [hp]
      · simp [hq]
    · simp [hf, hu]
  · simp [hf]

/-- C3.  In the presigned-URL strategy: an empty `.parquet` enumeration
fails with the no-data error (the spec's `NoDataFound`); for a non-empty
enumeration, keys failing to presign are skipped and the strategy raises
the zero-URLs error (the spec's `AttachmentFailed`) exactly when every
key failed to presign; and the strategy returns normally exactly when
both the enumeration and the presigned URL list are non-empty. -/
theorem c3_presigned_errors (eng : Engine) (s3 : S3Model) (pfx tn : String)
    (views : List String) :
    (findAllParquetFiles s3 pfx = [] →
      attachWithPresignedUrls eng s3 pfx tn views = .error (.noParquetFiles pfx))
    ∧ (findAllParquetFiles s3 pfx ≠ [] →
        (attachWithPresignedUrls eng s3 pfx tn views = .error .noPresignedUrls ↔
          ∀ k ∈ findAllParquetFiles s3 pfx, s3.presign k = none))
    ∧ ((attachWithPresignedUrls eng s3 pfx tn views).isOk = true ↔
        (findAllParquetFiles s3 pfx ≠ [] ∧
          (findAllParquetFiles s3 pfx).filterMap s3.presign ≠ [])) := by
  rw [attachWithPresignedUrls_cases]
  refine ⟨fun hf => by simp [hf], fun hf => ?_, ?_⟩
  · have hf2 : (findAllParquetFiles s3 pfx).isEmpty = false := by simpa using hf
    rw [hf2]
    simp only [Bool.false_eq_true, if_false]
    rw [← List.filterMap_eq_nil_iff (f := s3.presign)]
    cases hu : ((findAllParquetFiles s3 pfx).filterMap s3.presign).isEmpty
    · simp only [Bool.false_eq_true, if_false]
      constructor
      · intro h
        exact absurd h (by simp)
      · intro h
        simp [h] at hu
    · simp only [if_true]
      rw [List.isEmpty_iff] at hu
      simp [hu]
  · cases hf : (findAllParquetFiles s3 pfx).isEmpty
    · cases hu : ((findAllParquetFiles s3 pfx).filterMap s3.presign).isEmpty
      · rw [List.isEmpty_eq_false] at hf hu
        simp [hf, hu, Except.isOk, Except.toBool]
      · rw [List.isEmpty_eq_false] at hf
        rw [List.isEmpty_iff] at hu
        simp [hf, hu, Except.isOk, Except.toBool]
    · rw [List.isEmpty_iff] at hf
      simp [hf, Except.isOk, Except.toBool]

/-- Witness for C3 at a concrete bucket with one object whose presign
fails: the strategy raises the zero-URLs error. -/
theorem c3_presigned_errors_witness :
    attachWithPresignedUrls engAllOk s3NoPresign "catalog-data/o/d/t/" "t" [] =
      .error .noPresignedUrls :=
  ((c3_presigned_errors engAllOk s3NoPresign "catalog-data/o/d/t/" "t" []).2.1
    (by decide)).mpr (by decide)

/-- C2, counterexample.  In the last-resort stage the code raises
nothing: with every statement failing (zero partition views created) the
attachment returns normally with no view at all, and with only the
per-partition statements succeeding (the final UNION ALL fails) it
returns normally leaving just the orphaned partition view. -/
theorem c2_counterexample :
    (attachParquetFiles engAllFail s3One "catalog-data/o/d/t/" []).1 =
      Except.ok []
    ∧ (attachParquetFiles engPartOnly s3One "catalog-data/o/d/t/" []).1 =
      Except.ok ["t_part_0000"] := by
  constructor <;> rfl

/-- C2, amended.  Once the last-resort per-partition stage is reached
(non-empty enumeration, non-empty URL list, unified view creation
failed), the attachment always returns normally: partition views that
could be created are left in place (orphaned when the UNION ALL fails),
and neither an empty partition-view set nor a UNION ALL failure raises
an error. -/
theorem c2_last_resort_never_raises (eng : Engine) (s3 : S3Model)
    (pfx tn : String) (views : List String) :
    findAllParquetFiles s3 pfx ≠ [] →
    (findAllParquetFiles s3 pfx).filterMap s3.presign ≠ [] →
    eng.execOk (match (findAllParquetFiles s3 pfx).filterMap s3.presign with
      | [u] => viewFromSingleSource tn u
      | _ => viewFromUrlArray tn
          (urlsArrayLiteral ((findAllParquetFiles s3 pfx).filterMap s3.presign))) = false →
    attachWithPresignedUrls eng s3 pfx tn views =
      .ok (if (createPartViews eng tn
          ((findAllParquetFiles s3 pfx).filterMap s3.presign) 0 views).1.isEmpty then
        (createPartViews eng tn
          ((findAllParquetFiles s3 pfx).filterMap s3.presign) 0 views).2
      else if eng.execOk (unionAllQuery tn (createPartViews eng tn
          ((findAllParquetFiles s3 pfx).filterMap s3.presign) 0 views).1) then
        createOrReplaceView (createPartViews eng tn
          ((findAllParquetFiles s3 pfx).filterMap s3.presign) 0 views).2 tn
      else
        (createPartViews eng tn
          ((findAllParquetFiles s3 pfx).filterMap s3.presign) 0 views).2) := by
  intro hf hu hq
  rw [attachWithPresignedUrls_cases]
  have hf2 : (findAllParquetFiles s3 pfx).isEmpty = false := by simpa using hf
  have hu2 : ((findAllParquetFiles s3 pfx).filterMap s3.presign).isEmpty = false := by
    simpa using hu
  rw [hf2, hu2, hq]
  simp

/-- Witness for the amended C2: all statements fail, the stage is
reached, and the attachment still returns normally. -/
theorem c2_last_resort_never_raises_witness :
    attachWithPresignedUrls engAllFail s3One "catalog-data/o/d/t/" "t" [] =
      .ok (if (createPartViews engAllFail "t"
          ((findAllParquetFiles s3One "catalog-data/o/d/t/").filterMap s3One.presign)
          0 []).1.isEmpty then
        (createPartViews engAllFail "t"
          ((findAllParquetFiles s3One "catalog-data/o/d/t/").filterMap s3One.presign)
          0 []).2
      else if engAllFail.execOk (unionAllQuery "t" (createPartViews engAllFail "t"
          ((findAllParquetFiles s3One "catalog-data/o/d/t/").filterMap s3One.presign)
          0 []).1) then
        createOrReplaceView (createPartViews engAllFail "t"
          ((findAllParquetFiles s3One "catalog-data/o/d/t/").filterMap s3One.presign)
          0 []).2 "t"
      else
        (createPartViews engAllFail "t"
          ((findAllParquetFiles s3One "catalog-data/o/d/t/").filterMap s3One.presign)
          0 []).2) :=
  c2_last_resort_never_raises engAllFail s3One "catalog-data/o/d/t/" "t" []
    (by decide) (by decide) rfl


theorem interc_go_data (l : List String) :
    ∀ acc : String, (String.intercalate.go acc "/" l).data = acc.data ++ joinTail l := by
  induction l with
  | nil => intro acc; simp [String.intercalate.go, joinTail]
  | cons s rest ih =>
    intro acc
    show (String.intercalate.go (acc ++ "/" ++ s) "/" rest).data = _
    rw [ih]
    simp [joinTail, String.data_append, List.append_assoc]

theorem interc_data (s : String) (ss : List String) :
    (String.intercalate "/" (s :: ss)).data = s.data ++ joinTail ss := by
  show (String.intercalate.go s "/" ss).data = _
  exact interc_go_data ss s

theorem joinTail_tailChars (rest : List (String × String)) :
    joinTail (rest.map (fun kv => kv.1 ++ "=" ++ kv.2)) ++ '/' :: "data.parquet".data =
      '/' :: tailChars rest := by
  induction rest with
  | nil => rfl
  | cons kv r ih =>
    simp only [List.map_cons, joinTail, tailChars, List.cons_append, List.append_assoc, ih]
    simp [String.data_append]

theorem get_parquet_path_data (o d t : String) (ps : List (String × String)) :
    (get_parquet_path o d t (some ps)).data =
      "catalog-data/".data ++
        (o.data ++ '/' :: (d.data ++ '/' :: (t.data ++ '/' :: tailChars ps))) := by
  cases ps with
  | nil =>
    show ("catalog-data/" ++ String.intercalate "/" [o, d, t] ++ "/data.parquet").data = _
    rw [String.data_append, String.data_append, interc_data]
    simp [joinTail, tailChars, List.append_assoc]
  | cons kv rest =>
    show ("catalog-data/" ++ (String.intercalate "/" [o, d, t] ++ "/" ++
        String.intercalate "/" ((kv :: rest).map (fun kv => kv.1 ++ "=" ++ kv.2)))
        ++ "/data.parquet").data = _
    simp only [List.map_cons]
    rw [String.data_append, String.data_append, String.data_append, String.data_append,
      interc_data, interc_data]
    have h := joinTail_tailChars rest
    simp only [joinTail, tailChars, String.data_append, List.append_assoc, List.cons_append,
      List.nil_append, ← h]

theorem join_foldl_data (l : List String) :
    ∀ acc : String, (l.foldl (· ++ ·) acc).data = acc.data ++ joinData l := by
  induction l with
  | nil => intro acc; simp [joinData]
  | cons s rest ih =>
    intro acc
    show (rest.foldl (· ++ ·) (acc ++ s)).data = _
    rw [ih]
    simp [joinData, String.data_append, List.append_assoc]

theorem joinData_pref_tailChars (l : List (String × String)) :
    joinData (l.map (fun kv => "/" ++ kv.1 ++ "=" ++ kv.2)) ++ '/' :: "data.parquet".data =
      '/' :: tailChars l := by
  induction l with
  | nil => rfl
  | cons kv r ih =>
    simp only [List.map_cons, joinData, tailChars, String.data_append, List.cons_append,
      List.append_assoc, List.nil_append, ih]

theorem get_parquet_path_eq_spec (o d t : String) (ps : List (String × String)) :
    get_parquet_path o d t (some ps) = specPathFormat o d t ps := by
  apply String.ext
  rw [get_parquet_path_data]
  show _ = ("catalog-data/" ++ o ++ "/" ++ d ++ "/" ++ t ++
      String.join (ps.map (fun kv => "/" ++ kv.1 ++ "=" ++ kv.2)) ++ "/data.parquet").data
  have hjoin : (String.join (ps.map (fun kv => "/" ++ kv.1 ++ "=" ++ kv.2))).data =
      joinData (ps.map (fun kv => "/" ++ kv.1 ++ "=" ++ kv.2)) := by
    have := join_foldl_data (ps.map (fun kv => "/" ++ kv.1 ++ "=" ++ kv.2)) ""
    simpa [String.join] using this
  have h := joinData_pref_tailChars ps
  simp only [String.data_append, hjoin, List.append_assoc, List.singleton_append,
    List.cons_append, List.nil_append, ← h]

/-- C5.  The path resolver returns exactly
`catalog-data/{organization}/{dataset}/{table}[/{partcol}={partval}]*/data.parquet`
with one `key=value` segment per partition pair in caller order, and the
flat path when the partition mapping is empty or absent. -/
theorem c5_storage_path_format (o d t : String) (ps : List (String × String)) :
    get_parquet_path o d t (some ps) = specPathFormat o d t ps
    ∧ get_parquet_path o d t none = specPathFormat o d t []
    ∧ get_parquet_path o d t (some []) = specPathFormat o d t [] := by
  refine ⟨get_parquet_path_eq_spec o d t ps, ?_, get_parquet_path_eq_spec o d t []⟩
  rw [show get_parquet_path o d t none = get_parquet_path o d t (some []) from rfl]
  exact get_parquet_path_eq_spec o d t []

/-- C7, counterexample.  An empty organization is not rejected: the
resolver returns a path with an empty segment, while the spec's contract
prescribes an `InvalidIdentifier` rejection. -/
theorem c7_counterexample :
    get_parquet_path "" "d" "t" none = "catalog-data//d/t/data.parquet"
    ∧ specDataPath "" "d" "t" [] = .error .invalidIdentifier := ⟨rfl, rfl⟩

/-- C7, amended.  The path resolver performs no I/O and has no failure
mode at all: for every input — empty organization, dataset or table
included — it returns the standard interpolated path instead of
rejecting the request. -/
theorem c7_resolver_total (o d t : String)
    (popt : Option (List (String × String))) :
    get_parquet_path o d t popt =
      specPathFormat o d t (if dictTruthy popt then popt.getD [] else []) := by
  cases popt with
  | none =>
    rw [show get_parquet_path o d t none = get_parquet_path o d t (some []) from rfl]
    exact get_parquet_path_eq_spec o d t []
  | some ps =>
    cases hps : ps.isEmpty
    · have : dictTruthy (some ps) = true := by simp [dictTruthy, hps]
      rw [this, if_pos rfl]
      exact get_parquet_path_eq_spec o d t ps
    · have hnil : ps = [] := by simpa [List.isEmpty_iff] using hps
      subst hnil
      exact get_parquet_path_eq_spec o d t []

/-- Peeling a separator-free chunk before a separator occurrence is
injective. -/
theorem sep_peel {c : Char} : ∀ (a b x y : List Char), c ∉ a → c ∉ b →
    a ++ c :: x = b ++ c :: y → a = b ∧ x = y := by
  intro a
  induction a with
  | nil =>
    intro b x y _ hb h
    cases b with
    | nil => simpa using h
    | cons z b' =>
      simp only [List.nil_append, List.cons_append, List.cons.injEq] at h
      exact absurd (by simp [h.1]) hb
  | cons w a' ih =>
    intro b x y ha hb h
    cases b with
    | nil =>
      simp only [List.cons_append, List.nil_append, List.cons.injEq] at h
      exact absurd (by simp [h.1]) ha
    | cons z b' =>
      simp only [List.cons_append, List.cons.injEq] at h
      have ha' : c ∉ a' := fun hm => ha (List.mem_cons_of_mem w hm)
      have hb' : c ∉ b' := fun hm => hb (List.mem_cons_of_mem z hm)
      obtain ⟨h1, h2⟩ := ih b' x y ha' hb' h.2
      exact ⟨by rw [h.1, h1], h2⟩

theorem tailChars_inj : ∀ (ps qs : List (String × String)),
    (∀ kv ∈ ps, GoodPair kv) → (∀ kv ∈ qs, GoodPair kv) →
    tailChars ps = tailChars qs → ps = qs := by
  intro ps
  induction ps with
  | nil =>
    intro qs _ hq h
    cases qs with
    | nil => rfl
    | cons kv r =>
      exfalso
      have hsl : '/' ∈ tailChars (kv :: r) := by
        show '/' ∈ kv.1.data ++ '=' :: kv.2.data ++ '/' :: tailChars r
        simp
      rw [← h] at hsl
      revert hsl
      decide
  | cons kv r ih =>
    intro qs hp hq h
    cases qs with
    | nil =>
      exfalso
      have hsl : '/' ∈ tailChars (kv :: r) := by
        show '/' ∈ kv.1.data ++ '=' :: kv.2.data ++ '/' :: tailChars r
        simp
      rw [h] at hsl
      revert hsl
      decide
    | cons kv2 r2 =>
      have h' : kv.1.data ++ '=' :: (kv.2.data ++ '/' :: tailChars r) =
          kv2.1.data ++ '=' :: (kv2.2.data ++ '/' :: tailChars r2) := by
        simpa [tailChars, List.cons_append, List.append_assoc] using h
      have g1 := hp kv (List.mem_cons_self kv r)
      have g2 := hq kv2 (List.mem_cons_self kv2 r2)
      obtain ⟨e1, e2⟩ := sep_peel _ _ _ _ g1.2.1 g2.2.1 h'
      obtain ⟨e3, e4⟩ := sep_peel _ _ _ _ g1.2.2.1 g2.2.2.1 e2
      have hk : kv.1 = kv2.1 := String.ext e1
      have hv : kv.2 = kv2.2 := String.ext e3
      have hr : r = r2 := ih r2
        (fun x hx => hp x (List.mem_cons_of_mem kv hx))
        (fun x hx => hq x (List.mem_cons_of_mem kv2 hx)) e4
      rw [hr, show kv = kv2 from Prod.ext hk hv]

/-- C6, counterexample.  Injectivity fails: two distinct partition
mappings (a value containing the separator characters versus two plain
pairs) resolve to the same storage path. -/
theorem c6_counterexample :
    get_parquet_path "a" "b" "c" (some [("y", "1/m=2")]) =
      get_parquet_path "a" "b" "c" (some [("y", "1"), ("m", "2")])
    ∧ [("y", "1/m=2")] ≠ [("y", "1"), ("m", "2")] := by
  refine ⟨rfl, ?_⟩
  decide

/-- C6, amended.  The path resolver is deterministic, and it is
injective on inputs whose organization, dataset and table are
slash-free and whose partition keys and values contain neither the
slash nor the equals separator: such inputs yield equal paths exactly
when they are equal. -/
theorem c6_deterministic_injective (o d t o2 d2 t2 : String)
    (ps qs : List (String × String))
    (ho : '/' ∉ o.data) (hd : '/' ∉ d.data) (ht : '/' ∉ t.data)
    (ho2 : '/' ∉ o2.data) (hd2 : '/' ∉ d2.data) (ht2 : '/' ∉ t2.data)
    (hps : ∀ kv ∈ ps, GoodPair kv) (hqs : ∀ kv ∈ qs, GoodPair kv) :
    get_parquet_path o d t (some ps) = get_parquet_path o2 d2 t2 (some qs) ↔
      (o = o2 ∧ d = d2 ∧ t = t2 ∧ ps = qs) := by
  constructor
  · intro h
    have hdata := congrArg String.data h
    rw [get_parquet_path_data, get_parquet_path_data] at hdata
    have h1 := List.append_cancel_left hdata
    obtain ⟨e1, e2⟩ := sep_peel _ _ _ _ ho ho2 h1
    obtain ⟨e3, e4⟩ := sep_peel _ _ _ _ hd hd2 e2
    obtain ⟨e5, e6⟩ := sep_peel _ _ _ _ ht ht2 e4
    exact ⟨String.ext e1, String.ext e3, String.ext e5, tailChars_inj ps qs hps hqs e6⟩
  · rintro ⟨rfl, rfl, rfl, rfl⟩
    rfl

/-- Witness for the amended C6 at concrete well-formed inputs. -/
theorem c6_deterministic_injective_witness :
    get_parquet_path "a" "b" "c" (some [("x", "1")]) =
      get_parquet_path "a" "b" "c" (some [("x", "2")]) ↔
      ("a" = "a" ∧ "b" = "b" ∧ "c" = "c" ∧
        [(("x" : String), ("1" : String))] = [(("x" : String), ("2" : String))]) :=
  c6_deterministic_injective "a" "b" "c" "a" "b" "c" [("x", "1")] [("x", "2")]
    (by decide) (by decide) (by decide) (by decide) (by decide) (by decide)
    (by decide) (by decide)

theorem splitOnChar_ne_nil (c : Char) (l : List Char) : splitOnChar c l ≠ [] := by
  cases l with
  | nil => simp [splitOnChar]
  | cons x xs =>
    simp only [splitOnChar]
    split
    · simp
    · split
      · simp
      · simp

theorem splitOnChar_not_mem (c : Char) : ∀ (l : List Char), c ∉ l → splitOnChar c l = [l] := by
  intro l
  induction l with
  | nil => intro _; rfl
  | cons x xs ih =>
    intro h
    have hx : ¬ x = c := fun he => h (by simp [he])
    have hxs : c ∉ xs := fun hm => h (List.mem_cons_of_mem x hm)
    simp only [splitOnChar, if_neg hx, ih hxs]

theorem splitOnChar_len2 (c : Char) : ∀ (l : List Char), c ∈ l →
    2 ≤ (splitOnChar c l).length := by
  intro l
  induction l with
  | nil => intro h; simp at h
  | cons x xs ih =>
    intro h
    simp only [splitOnChar]
    by_cases hx : x = c
    · rw [if_pos hx]
      have := splitOnChar_ne_nil c xs
      have : 1 ≤ (splitOnChar c xs).length := by
        cases hh : splitOnChar c xs with
        | nil => exact absurd hh this
        | cons a b => simp
      simpa using this
    · rw [if_neg hx]
      have hxs : c ∈ xs := by
        rcases List.mem_cons.mp h with h1 | h2
        · exact absurd h1.symm hx
        · exact h2
      have h2 := ih hxs
      cases hh : splitOnChar c xs with
      | nil => exact absurd hh (splitOnChar_ne_nil c xs)
      | cons a b =>
        rw [hh] at h2
        simpa using h2

theorem getLast?_splitOnChar (c : Char) (b : List Char) (hb : c ∉ b) :
    ∀ a : List Char, (splitOnChar c (a ++ c :: b)).getLast? = some b := by
  intro a
  induction a with
  | nil =>
    show (splitOnChar c (c :: b)).getLast? = some b
    simp only [splitOnChar, if_pos rfl, splitOnChar_not_mem c b hb]
    rfl
  | cons x a' ih =>
    show (splitOnChar c (x :: (a' ++ c :: b))).getLast? = some b
    simp only [splitOnChar]
    by_cases hx : x = c
    · rw [if_pos hx]
      cases hh : splitOnChar c (a' ++ c :: b) with
      | nil => exact absurd hh (splitOnChar_ne_nil c _)
      | cons s rest =>
        rw [hh] at ih
        rw [List.getLast?_cons_cons]
        exact ih
    · rw [if_neg hx]
      cases hh : splitOnChar c (a' ++ c :: b) with
      | nil => exact absurd hh (splitOnChar_ne_nil c _)
      | cons s rest =>
        have hlen := splitOnChar_len2 c (a' ++ c :: b) (by simp)
        rw [hh] at hlen
        cases rest with
        | nil => simp at hlen
        | cons u rest' =>
          rw [hh] at ih
          rw [List.getLast?_cons_cons]
          rw [List.getLast?_cons_cons] at ih
          exact ih

theorem rstrip_trailing (l : List Char) : rstripSlash (l ++ ['/']) = rstripSlash l := by
  simp [rstripSlash, List.dropWhile]

theorem rstrip_no_slash (l1 l2 : List Char) (h2 : l2 ≠ []) (h : '/' ∉ l2) :
    rstripSlash (l1 ++ l2) = l1 ++ l2 := by
  unfold rstripSlash
  rw [List.reverse_append]
  cases hh : l2.reverse with
  | nil => exact absurd (by simpa using hh) h2
  | cons y ys =>
    have hy : y ∈ l2 := by
      have : y ∈ l2.reverse := by simp [hh]
      simpa using this
    have hyne : ¬ (y = '/') := fun he => h (he ▸ hy)
    rw [List.cons_append, List.dropWhile_cons_of_neg (by simp [hyne])]
    rw [← List.cons_append, ← hh]
    simp

theorem tableName_wrapped (s w : String) (hw : '/' ∉ w.data) (hne : w ≠ "") :
    tableNameOfPfx (s ++ "/" ++ w ++ "/") = w := by
  unfold tableNameOfPfx
  have hdata : (s ++ "/" ++ w ++ "/").toList = (s.data ++ ['/'] ++ w.data) ++ ['/'] := by
    show (s ++ "/" ++ w ++ "/").data = _
    simp [String.data_append, List.append_assoc]
  rw [hdata, rstrip_trailing]
  have hwne : w.data ≠ [] := fun he => hne (String.ext he)
  rw [rstrip_no_slash (s.data ++ ['/']) w.data hwne hw]
  have : s.data ++ ['/'] ++ w.data = s.data ++ '/' :: w.data := by simp
  rw [this]
  rw [List.getLastD_eq_getLast?, getLast?_splitOnChar '/' w.data hw s.data]
  exact String.asString_toList w

theorem tableName_of_data (p : String) (a w : List Char)
    (hp : p.data = a ++ '/' :: w ++ ['/']) (hw : '/' ∉ w) (hne : w ≠ []) :
    tableNameOfPfx p = w.asString := by
  unfold tableNameOfPfx
  show ((splitOnChar '/' (rstripSlash p.data)).getLastD []).asString = _
  rw [hp]
  rw [show a ++ '/' :: w ++ ['/'] = (a ++ '/' :: w) ++ ['/'] from by simp]
  rw [rstrip_trailing]
  rw [show a ++ '/' :: w = (a ++ ['/']) ++ w from by simp]
  rw [rstrip_no_slash (a ++ ['/']) w hne hw]
  rw [show (a ++ ['/']) ++ w = a ++ '/' :: w from by simp]
  rw [List.getLastD_eq_getLast?, getLast?_splitOnChar '/' w hw a]
  rfl

theorem foldl_segs_data (ps : List (String × String)) :
    ∀ acc : String,
      (ps.foldl (fun acc kv => acc ++ kv.1 ++ "=" ++ kv.2 ++ "/") acc).data =
        acc.data ++ segsData ps := by
  induction ps with
  | nil => intro acc; simp [segsData]
  | cons kv rest ih =>
    intro acc
    show (rest.foldl _ (acc ++ kv.1 ++ "=" ++ kv.2 ++ "/")).data = _
    rw [ih]
    simp [segsData, String.data_append, List.append_assoc,
      show ("=" : String).data = ['='] from rfl,
      show ("/" : String).data = ['/'] from rfl]

theorem segsData_append (ps qs : List (String × String)) :
    segsData (ps ++ qs) = segsData ps ++ segsData qs := by
  induction ps with
  | nil => simp [segsData]
  | cons kv rest ih => simp [segsData, ih, List.append_assoc]

theorem segsData_ends (ps : List (String × String)) (h : ps ≠ []) :
    ∃ a, segsData ps = a ++ ['/'] := by
  induction ps with
  | nil => exact absurd rfl h
  | cons kv rest ih =>
    cases rest with
    | nil =>
      refine ⟨kv.1.data ++ '=' :: kv.2.data, ?_⟩
      simp [segsData]
    | cons kv2 r2 =>
      obtain ⟨a, ha⟩ := ih (by simp)
      refine ⟨kv.1.data ++ '=' :: kv.2.data ++ '/' :: a, ?_⟩
      rw [show segsData (kv :: kv2 :: r2) =
        kv.1.data ++ '=' :: kv.2.data ++ '/' :: segsData (kv2 :: r2) from rfl, ha]
      simp [List.append_assoc]

theorem getDuckdbPfx_name (o d t : String) (ht : '/' ∉ t.data) (hne : t ≠ "") :
    tableNameOfPfx (getDuckdbPfx o d t) = t := by
  have h := tableName_of_data (getDuckdbPfx o d t)
    ("catalog-data/".data ++ o.data ++ '/' :: d.data) t.data
    (by simp [getDuckdbPfx, String.data_append, List.append_assoc,
      show ("/" : String).data = ['/'] from rfl])
    ht (fun he => hne (String.ext he))
  rw [h]
  exact String.asString_toList t

theorem getDuckdbForPartitionsPfx_name (o d t k v : String)
    (ps : List (String × String)) (hk : '/' ∉ k.data) (hv : '/' ∉ v.data) :
    tableNameOfPfx (getDuckdbForPartitionsPfx o d t (ps ++ [(k, v)])) =
      k ++ "=" ++ v := by
  have hw : '/' ∉ k.data ++ '=' :: v.data := by
    intro hm
    rcases List.mem_append.mp hm with h1 | h2
    · exact hk h1
    · rcases List.mem_cons.mp h2 with h3 | h4
      · exact absurd h3 (by decide)
      · exact hv h4
  have hdata : (getDuckdbForPartitionsPfx o d t (ps ++ [(k, v)])).data =
      ("catalog-data/".data ++ o.data ++ '/' :: d.data ++ '/' :: t.data) ++ '/' ::
        (segsData ps ++ (k.data ++ '=' :: v.data ++ ['/'])) := by
    show (getDuckdbPfx o d t ++ _).data = _
    rw [String.data_append, foldl_segs_data, segsData_append]
    simp [getDuckdbPfx, String.data_append, List.append_assoc, segsData,
      show ("/" : String).data = ['/'] from rfl]
  rcases List.eq_nil_or_concat ps with hnil | ⟨qs, kv2, hcat⟩
  · subst hnil
    have h := tableName_of_data _
      ("catalog-data/".data ++ o.data ++ '/' :: d.data ++ '/' :: t.data)
      (k.data ++ '=' :: v.data)
      (by rw [hdata]; simp [segsData, List.append_assoc]) hw (by simp)
    rw [h]
    apply String.ext
    rw [show ((k.data ++ '=' :: v.data).asString).data = k.data ++ '=' :: v.data from
      List.toList_asString _]
    simp [String.data_append, show ("=" : String).data = ['='] from rfl]
  · obtain ⟨a2, ha2⟩ := segsData_ends ps (by rw [hcat]; simp)
    have h := tableName_of_data _
      ("catalog-data/".data ++ o.data ++ '/' :: d.data ++ '/' :: t.data ++ '/' :: a2)
      (k.data ++ '=' :: v.data)
      (by rw [hdata, ha2]; simp [List.append_assoc]) hw (by simp)
    rw [h]
    apply String.ext
    rw [show ((k.data ++ '=' :: v.data).asString).data = k.data ++ '=' :: v.data from
      List.toList_asString _]
    simp [String.data_append, show ("=" : String).data = ['='] from rfl]

theorem createOrReplace_idem (views : List String) (n : String) :
    createOrReplaceView (createOrReplaceView views n) n = createOrReplaceView views n := by
  unfold createOrReplaceView
  by_cases h : n ∈ views
  · simp [h]
  · simp [h]

theorem createOrReplace_nodup_count (views : List String) (n : String)
    (h : views.Nodup) :
    (createOrReplaceView views n).Nodup ∧ (createOrReplaceView views n).count n = 1 := by
  unfold createOrReplaceView
  by_cases hm : n ∈ views
  · simp only [hm, if_true]
    exact ⟨h, List.count_eq_one_of_mem h hm⟩
  · simp only [hm, if_false]
    constructor
    · simp [List.nodup_append, h, hm]
    · rw [List.count_append]
      simp [List.count_eq_zero_of_not_mem hm]

/-- C4, counterexample.  The view name is derived from the last prefix
segment, so a partition-scoped attachment names its view after the last
`key=value` partition segment and not after the table. -/
theorem c4_counterexample :
    tableNameOfPfx (getDuckdbForPartitionsPfx "o" "d" "t" [("m", "01")]) = "m=01"
    ∧ "m=01" ≠ "t"
    ∧ tableNameOfPfx (getDuckdbPfx "o" "d" "t") = "t" := by
  refine ⟨rfl, by decide, rfl⟩

/-- C4, amended.  A whole-table attachment names its one view after the
table (for well-formed, slash-free, non-empty table names), while a
partition-scoped attachment names it after the last `key=value`
partition segment; in both cases the name depends only on the prefix so
it is stable per session, and CREATE OR REPLACE semantics make
re-attachment replace the view — never duplicating it and never raising
a "view already exists" error. -/
theorem c4_view_name_and_replace (o d t k v : String)
    (ps : List (String × String)) (n : String) (views : List String)
    (ht : '/' ∉ t.data) (htne : t ≠ "") (hk : '/' ∉ k.data) (hv : '/' ∉ v.data) :
    tableNameOfPfx (getDuckdbPfx o d t) = t
    ∧ tableNameOfPfx (getDuckdbForPartitionsPfx o d t (ps ++ [(k, v)])) = k ++ "=" ++ v
    ∧ createOrReplaceView (createOrReplaceView views n) n = createOrReplaceView views n
    ∧ (views.Nodup →
        (createOrReplaceView views n).Nodup ∧ (createOrReplaceView views n).count n = 1) := by
  exact ⟨getDuckdbPfx_name o d t ht htne,
    getDuckdbForPartitionsPfx_name o d t k v ps hk hv,
    createOrReplace_idem views n,
    fun h => createOrReplace_nodup_count views n h⟩

/-- Witness for the amended C4 at concrete inputs. -/
theorem c4_view_name_and_replace_witness :
    tableNameOfPfx (getDuckdbPfx "org" "ds" "tbl") = "tbl"
    ∧ tableNameOfPfx (getDuckdbForPartitionsPfx "org" "ds" "tbl"
        ([] ++ [("y", "2025")])) = "y" ++ "=" ++ "2025"
    ∧ createOrReplaceView (createOrReplaceView ["tbl"] "tbl") "tbl" =
        createOrReplaceView ["tbl"] "tbl"
    ∧ (["tbl"].Nodup →
        (createOrReplaceView ["tbl"] "tbl").Nodup ∧
          (createOrReplaceView ["tbl"] "tbl").count "tbl" = 1) :=
  c4_view_name_and_replace "org" "ds" "tbl" "y" "2025" [] "tbl" ["tbl"]
    (by decide) (by decide) (by decide) (by decide)

theorem getBytes_putBytes (store : Store) (key : String) (df : DataFrame) :
    getBytes (putBytes store key df) key = some df := by
  unfold putBytes getBytes
  cases ha : List.any store (fun e => e.1 = key)
  · rw [if_neg (by simp [ha])]
    induction store with
    | nil => simp
    | cons e tl ih =>
      simp only [List.any_cons, Bool.or_eq_false_iff] at ha
      have he : ¬ (e.1 = key) := by simpa using ha.1
      rw [List.append_cons]
      simp only [List.find?]
      rw [show (decide (e.1 = key)) = false from by simpa using he]
      simpa using ih ha.2
  · rw [if_pos (by simp [ha])]
    induction store with
    | nil => simp at ha
    | cons e tl ih =>
      by_cases he : e.1 = key
      · simp [List.find?, he]
      · simp only [List.any_cons] at ha
        have ha2 : List.any tl (fun e => e.1 = key) = true := by
          rcases Bool.or_eq_true_iff.mp ha with h1 | h2
          · exact absurd (by simpa using h1) he
          · exact h2
        have hd : (decide (e.1 = key)) = false := by simpa using he
        simp only [List.map_cons, List.find?, if_neg he, hd]
        exact ih ha2

theorem nRows_append_single (df : DataFrame) (k : String) (vals : List Val)
    (hlen : vals.length = df.nRows) :
    DataFrame.nRows ⟨df.cols ++ [(k, vals)]⟩ = df.nRows := by
  cases hc : df.cols with
  | nil =>
    have : df.nRows = 0 := by simp [DataFrame.nRows, hc]
    simp [DataFrame.nRows, hc, hlen, this]
  | cons c cs =>
    simp [DataFrame.nRows, hc]

theorem setColumn_fresh (df : DataFrame) (k : String) (v : Val)
    (h : k ∉ df.colNames) :
    df.setColumn k v = ⟨df.cols ++ [(k, List.replicate df.nRows v)]⟩ := by
  unfold DataFrame.setColumn
  rw [if_neg]
  intro hany
  rcases List.any_eq_true.mp hany with ⟨c, hc, hck⟩
  exact h (by
    rcases (by simpa using hck : c.1 = k) with rfl
    exact List.mem_map_of_mem (fun c => c.1) hc)

theorem foldl_setColumn_fresh :
    ∀ (ps : List (String × String)) (df : DataFrame),
      (∀ kv ∈ ps, kv.1 ∉ df.colNames) → (ps.map (fun kv => kv.1)).Nodup →
      ps.foldl (fun acc kv => acc.setColumn kv.1 (Val.str kv.2)) df =
        ⟨df.cols ++ ps.map (fun kv => (kv.1, List.replicate df.nRows (Val.str kv.2)))⟩ := by
  intro ps
  induction ps with
  | nil =>
    intro df _ _
    simp
  | cons kv rest ih =>
    intro df hfresh hnodup
    have hk : kv.1 ∉ df.colNames := hfresh kv (List.mem_cons_self kv rest)
    have hstep := setColumn_fresh df kv.1 (Val.str kv.2) hk
    show rest.foldl _ (df.setColumn kv.1 (Val.str kv.2)) = _
    rw [hstep]
    have hrows : DataFrame.nRows ⟨df.cols ++ [(kv.1, List.replicate df.nRows (Val.str kv.2))]⟩ =
        df.nRows :=
      nRows_append_single df kv.1 _ (by simp)
    have hfresh2 : ∀ kv2 ∈ rest,
        kv2.1 ∉ (⟨df.cols ++ [(kv.1, List.replicate df.nRows (Val.str kv.2))]⟩ :
          DataFrame).colNames := by
      intro kv2 hm
      simp only [DataFrame.colNames, List.map_append, List.map_cons, List.map_nil,
        List.mem_append, List.mem_cons, List.not_mem_nil]
      rintro (h1 | h2 | h3)
      · exact hfresh kv2 (List.mem_cons_of_mem kv hm) (by simpa [DataFrame.colNames] using h1)
      · have : kv.1 ∈ rest.map (fun kv => kv.1) := h2 ▸ List.mem_map_of_mem _ hm
        exact (List.nodup_cons.mp (by simpa using hnodup)).1 this
      · exact h3
    have hnodup2 : (rest.map (fun kv => kv.1)).Nodup :=
      (List.nodup_cons.mp (by simpa using hnodup)).2
    rw [ih _ hfresh2 hnodup2, hrows]
    simp [List.append_assoc]

theorem getBytes_of_mem (store : Store) (hn : (store.map (fun e => e.1)).Nodup)
    (e : String × DataFrame) (he : e ∈ store) : getBytes store e.1 = some e.2 := by
  induction store with
  | nil => simp at he
  | cons hd tl ih =>
    rcases List.mem_cons.mp he with rfl | hm
    · simp [getBytes, List.find?]
    · have hn' : (hd.1 :: tl.map (fun e => e.1)).Nodup := by
        rw [← List.map_cons]
        exact hn
      have hn2 := List.nodup_cons.mp hn'
      have hne : ¬ (hd.1 = e.1) := by
        intro hkey
        exact hn2.1 (hkey ▸ List.mem_map_of_mem (fun e => e.1) hm)
      unfold getBytes
      simp only [List.find?]
      rw [show (decide (hd.1 = e.1)) = false from by simpa using hne]
      exact ih hn2.2 hm

theorem filterMap_getBytes (store : Store) (hn : (store.map (fun e => e.1)).Nodup) :
    ∀ (l : List (String × DataFrame)), (∀ e ∈ l, e ∈ store) →
      (l.map (fun e => e.1)).filterMap (getBytes store) = l.map (fun e => e.2) := by
  intro l
  induction l with
  | nil => intro _; rfl
  | cons e tl ih =>
    intro hsub
    simp only [List.map_cons, List.filterMap_cons]
    rw [getBytes_of_mem store hn e (hsub e (List.mem_cons_self e tl))]
    rw [ih (fun x hx => hsub x (List.mem_cons_of_mem e hx))]

theorem col_foldr_len (n : String) :
    ∀ (dfs : List DataFrame), (∀ df ∈ dfs, df.Rect) →
      (dfs.foldr (fun df acc =>
        ((df.getCol n).getD (List.replicate df.nRows Val.null)) ++ acc) []).length =
        (dfs.map DataFrame.nRows).sum := by
  intro dfs
  induction dfs with
  | nil => intro _; rfl
  | cons df tl ih =>
    intro hr
    simp only [List.foldr_cons, List.length_append, List.map_cons, List.sum_cons]
    rw [ih (fun x hx => hr x (List.mem_cons_of_mem df hx))]
    congr 1
    cases hc : df.getCol n with
    | none => simp
    | some vals =>
      simp only [Option.getD_some]
      unfold DataFrame.getCol at hc
      rcases Option.map_eq_some'.mp hc with ⟨c, hfind, hcv⟩
      have hcm := List.mem_of_find?_eq_some hfind
      rw [← hcv]
      exact hr df (List.mem_cons_self df tl) c hcm

theorem names_nil_all_nil :
    ∀ (dfs : List DataFrame) (acc : List String),
      dfs.foldl (fun acc df => acc ++ df.colNames.filter (fun n => n ∉ acc)) acc = [] →
      acc = [] ∧ ∀ df ∈ dfs, df.colNames = [] := by
  intro dfs
  induction dfs with
  | nil =>
    intro acc h
    exact ⟨h, by simp⟩
  | cons df tl ih =>
    intro acc h
    obtain ⟨h1, h2⟩ := ih _ h
    obtain ⟨ha, hf⟩ := List.append_eq_nil.mp h1
    have hcols : df.colNames = [] := by
      subst ha
      have : df.colNames.filter (fun n => n ∉ ([] : List String)) = df.colNames := by
        apply List.filter_eq_self.mpr
        intro a _
        simp
      rw [this] at hf
      exact hf
    refine ⟨ha, fun x hx => ?_⟩
    rcases List.mem_cons.mp hx with rfl | hm
    · exact hcols
    · exact h2 x hm

theorem nRows_concatDfs (dfs : List DataFrame) (h : ∀ df ∈ dfs, df.Rect) :
    (concatDfs dfs).nRows = (dfs.map DataFrame.nRows).sum := by
  unfold concatDfs
  cases hnames : dfs.foldl (fun acc df => acc ++ df.colNames.filter (fun n => n ∉ acc)) [] with
  | nil =>
    obtain ⟨_, hall⟩ := names_nil_all_nil dfs [] hnames
    have : (dfs.map DataFrame.nRows).sum = 0 := by
      apply List.sum_eq_zero
      intro x hx
      rcases List.mem_map.mp hx with ⟨df, hdf, rfl⟩
      have hc : df.cols = [] := List.map_eq_nil_iff.mp (hall df hdf)
      simp [DataFrame.nRows, hc]
    simp only [List.map_nil, this]
    rfl
  | cons n0 rest =>
    simp only [List.map_cons, DataFrame.nRows]
    exact col_foldr_len n0 dfs h

theorem listPartitionPaths_eq_filter (store : Store) (o d t : String) :
    listPartitionPaths store o d t =
      (store.filter (fun e =>
        strStarts e.1 ("catalog-data/" ++ o ++ "/" ++ d ++ "/" ++ t ++ "/")
          && strEnds e.1 "data.parquet")).map (fun e => e.1) := by
  unfold listPartitionPaths listObjectsStore
  rw [List.filter_map]
  rw [List.filter_filter]
  rw [List.filter_congr (fun a _ => Bool.and_comm
    (((fun f => strEnds f "data.parquet") ∘ fun e => e.1) a)
    (strStarts a.1 ("catalog-data/" ++ o ++ "/" ++ d ++ "/" ++ t ++ "/")))]
  rfl

theorem foldl_heapSet_preserve (i j : Nat) (hij : i ≠ j) :
    ∀ (ps : List (String × String)) (hh : List DataFrame),
      (ps.foldl (fun hh kv =>
        heapSet hh i ((heapGet hh i).setColumn kv.1 (Val.str kv.2))) hh)[j]? = hh[j]? := by
  intro ps
  induction ps with
  | nil => intro hh; rfl
  | cons kv rest ih =>
    intro hh
    show (rest.foldl _ (heapSet hh i ((heapGet hh i).setColumn kv.1 (Val.str kv.2))))[j]? = _
    rw [ih]
    exact List.getElem?_set_ne hij

/-- C8, counterexample.  When a partition key collides with an existing
column of the frame, the column is overwritten in place, not appended:
the read-back differs both from "df plus an extra column" and from df's
own values. -/
theorem c8_counterexample :
    getParquetData
        (putParquetData [] ⟨[("p", [Val.int 1])]⟩ "o" "d" "t" (some [("p", "x")])).1
        "o" "d" "t" (some [("p", "x")]) = some ⟨[("p", [Val.str "x"])]⟩
    ∧ (⟨[("p", [Val.str "x"])]⟩ : DataFrame) ≠
        ⟨[("p", [Val.int 1]), ("p", [Val.str "x"])]⟩
    ∧ (⟨[("p", [Val.str "x"])]⟩ : DataFrame).getCol "p" ≠
        (⟨[("p", [Val.int 1])]⟩ : DataFrame).getCol "p" := by
  refine ⟨rfl, by decide, by decide⟩

/-- C8, amended.  For every frame and non-empty partition mapping whose
keys are pairwise distinct and distinct from the frame's columns,
reading back right after writing returns the frame with each partition
value appended as an extra broadcast column. -/
theorem c8_roundtrip (store : Store) (df : DataFrame) (o d t : String)
    (ps : List (String × String)) (hne : ps ≠ [])
    (hfresh : ∀ kv ∈ ps, kv.1 ∉ df.colNames)
    (hnodup : (ps.map (fun kv => kv.1)).Nodup) :
    getParquetData (putParquetData store df o d t (some ps)).1 o d t (some ps) =
      some ⟨df.cols ++ ps.map (fun kv =>
        (kv.1, List.replicate df.nRows (Val.str kv.2)))⟩ := by
  have htr : dictTruthy (some ps) = true := by
    simp [dictTruthy, List.isEmpty_iff, hne]
  unfold putParquetData getParquetData
  rw [htr]
  simp only [if_true]
  rw [getBytes_putBytes]
  rw [show (some ps).getD [] = ps from rfl]
  rw [foldl_setColumn_fresh ps df hfresh hnodup]

/-- Witness for the amended C8 at a concrete frame and partition. -/
theorem c8_roundtrip_witness :
    getParquetData (putParquetData [] dfA "o" "d" "t" (some [("r", "1")])).1
        "o" "d" "t" (some [("r", "1")]) =
      some ⟨dfA.cols ++ [(("r" : String), ("1" : String))].map (fun kv =>
        (kv.1, List.replicate dfA.nRows (Val.str kv.2)))⟩ :=
  c8_roundtrip [] dfA "o" "d" "t" [("r", "1")]
    (by decide) (by decide) (by decide)

/-- C9.  Reading with the partitions argument omitted never raises: it
reads every listed object under the table prefix ending in the data-file
suffix (none skipped), returns their concatenation in enumeration
order, whose row count is the sum of the per-file row counts, and
returns an empty zero-row frame when the enumeration is empty. -/
theorem c9_read_all_partitions (store : Store) (o d t : String)
    (hn : (store.map (fun e => e.1)).Nodup)
    (hrect : ∀ e ∈ store, DataFrame.Rect e.2) :
    (getParquetData store o d t none).isSome = true
    ∧ ((listPartitionPaths store o d t).filterMap (getBytes store)).length =
        (listPartitionPaths store o d t).length
    ∧ getParquetData store o d t none =
        some (if ((listPartitionPaths store o d t).filterMap (getBytes store)).isEmpty
          then ⟨[]⟩
          else concatDfs ((listPartitionPaths store o d t).filterMap (getBytes store)))
    ∧ (∀ res, getParquetData store o d t none = some res →
        res.nRows = (((listPartitionPaths store o d t).filterMap (getBytes store)).map
          DataFrame.nRows).sum)
    ∧ (listPartitionPaths store o d t = [] →
        getParquetData store o d t none = some ⟨[]⟩) := by
  have hflt := listPartitionPaths_eq_filter store o d t
  have hsub : ∀ e ∈ store.filter (fun e =>
      strStarts e.1 ("catalog-data/" ++ o ++ "/" ++ d ++ "/" ++ t ++ "/")
        && strEnds e.1 "data.parquet"), e ∈ store :=
    fun e he => List.mem_of_mem_filter he
  have hdfs : (listPartitionPaths store o d t).filterMap (getBytes store) =
      (store.filter (fun e =>
        strStarts e.1 ("catalog-data/" ++ o ++ "/" ++ d ++ "/" ++ t ++ "/")
          && strEnds e.1 "data.parquet")).map (fun e => e.2) := by
    rw [hflt]
    exact filterMap_getBytes store hn _ hsub
  have hbody : getParquetData store o d t none =
      some (if ((listPartitionPaths store o d t).filterMap (getBytes store)).isEmpty
        then ⟨[]⟩
        else concatDfs ((listPartitionPaths store o d t).filterMap (getBytes store))) := by
    show (if ((listPartitionPaths store o d t).filterMap (getBytes store)).isEmpty
        then some (⟨[]⟩ : DataFrame)
        else some (concatDfs ((listPartitionPaths store o d t).filterMap (getBytes store)))) = _
    cases ((listPartitionPaths store o d t).filterMap (getBytes store)).isEmpty <;> simp
  refine ⟨?_, ?_, hbody, ?_, ?_⟩
  · rw [hbody]
    rfl
  · rw [hdfs, hflt]
    simp
  · intro res hres
    rw [hbody] at hres
    rcases Option.some.injEq _ _ ▸ hres with rfl
    cases he : ((listPartitionPaths store o d t).filterMap (getBytes store)).isEmpty
    · simp only [he, Bool.false_eq_true, if_false]
      apply nRows_concatDfs
      intro df hdf
      rw [hdfs] at hdf
      rcases List.mem_map.mp hdf with ⟨e, hef, rfl⟩
      exact hrect e (hsub e hef)
    · simp only [he, if_true]
      have : (listPartitionPaths store o d t).filterMap (getBytes store) = [] :=
        List.isEmpty_iff.mp he
      simp [this, DataFrame.nRows]
  · intro hp
    rw [hbody, hp]
    simp

/-- Witness for C9 at a concrete two-partition store: the read succeeds
and the row count is the sum of the per-file counts. -/
theorem c9_read_all_partitions_witness :
    (getParquetData storeTwo "o" "d" "t" none).isSome = true
    ∧ ((listPartitionPaths storeTwo "o" "d" "t").filterMap (getBytes storeTwo)).length =
        (listPartitionPaths storeTwo "o" "d" "t").length :=
  ⟨(c9_read_all_partitions storeTwo "o" "d" "t" (by decide) (by decide)).1,
    (c9_read_all_partitions storeTwo "o" "d" "t" (by decide) (by decide)).2.1⟩

/-- C10.  The write operation never mutates the caller's frame: all
partition-column assignments act on the `df.copy()` allocated inside the
call, so the heap cell the caller's reference points to is unchanged. -/
theorem c10_no_caller_mutation (h : List DataFrame) (store : Store) (r : Nat)
    (o d t : String) (popt : Option (List (String × String)))
    (hr : r < h.length) :
    ((putParquetDataRef h store r o d t popt).1)[r]? = h[r]? := by
  unfold putParquetDataRef copyAlloc
  have hne : h.length ≠ r := fun he => absurd (he ▸ hr) (Nat.lt_irrefl _)
  cases htr : dictTruthy popt
  · simp only [Bool.false_eq_true, if_false]
    exact List.getElem?_append_left hr
  · simp only [if_true]
    rw [foldl_heapSet_preserve h.length r hne]
    exact List.getElem?_append_left hr

/-- Witness for C10 at a concrete one-frame heap. -/
theorem c10_no_caller_mutation_witness :
    ((putParquetDataRef [dfA] [] 0 "o" "d" "t" (some [("r", "1")])).1)[0]? =
      [dfA][0]? :=
  c10_no_caller_mutation [dfA] [] 0 "o" "d" "t" (some [("r", "1")]) (by decide)
